import Mathlib

/-!
Shallow embedding of the aws-eks-iam-auth-controller reconciliation core
(src/main.rs).  The pure list computation (prune + classify/upsert) is
translated directly from the body of `reconcile`; the effectful skeleton
(document fetch, parse, apply, latency histogram, requeue action) is
modelled by explicit outcome values threaded through a total function.
-/

/-- Spec of the IAMIdentityMapping custom resource (src/main.rs,
struct IAMIdentityMappingSpec): arn, username, optional groups. -/
structure IAMIdentityMappingSpec where
  arn : String
  username : String
  groups : Option (List String)
deriving DecidableEq, Repr

/-- An entry of the serialized mapRoles list (src/main.rs, struct MapRole). -/
structure MapRole where
  rolearn : String
  username : String
  groups : Option (List String)
deriving DecidableEq, Repr

/-- An entry of the serialized mapUsers list (src/main.rs, struct MapUser). -/
structure MapUser where
  userarn : String
  username : String
  groups : Option (List String)
deriving DecidableEq, Repr

/-- The needle character list occurs at the very start of the haystack. -/
def startsWithChars : List Char → List Char → Bool
  | _, [] => true
  | [], _ :: _ => false
  | h :: hs, n :: ns => h == n && startsWithChars hs ns

/-- The needle character list occurs contiguously somewhere in the
haystack. -/
def containsChars : List Char → List Char → Bool
  | [], needle => needle.isEmpty
  | h :: hs, needle => startsWithChars (h :: hs) needle || containsChars hs needle

/-- Rust's str::contains: the needle occurs as a contiguous substring of the
haystack, modelled on the character lists. -/
def strContains (hay needle : String) : Bool :=
  containsChars hay.toList needle.toList

/-- The classification test used by reconcile: spec.arn.contains(":role/"). -/
def isRoleArn (a : String) : Bool :=
  strContains a ":role/"

/-- Prune step for mapRoles (src/main.rs line 106):
roles.retain(|r| state.iter().find(|v| r.rolearn == v.spec.arn).is_some()). -/
def pruneRoles (state : List IAMIdentityMappingSpec) (roles : List MapRole) :
    List MapRole :=
  roles.filter (fun r => state.any (fun v => r.rolearn == v.arn))

/-- Prune step for mapUsers (src/main.rs line 107):
users.retain(|r| state.iter().find(|v| r.username == v.spec.arn).is_some()).
Note the source compares the entry's username field against the live arn. -/
def pruneUsers (state : List IAMIdentityMappingSpec) (users : List MapUser) :
    List MapUser :=
  users.filter (fun r => state.any (fun v => r.username == v.arn))

/-- The role entry built for a live resource in the upsert loop. -/
def mkRoleEntry (sp : IAMIdentityMappingSpec) : MapRole :=
  ⟨sp.arn, sp.username, sp.groups⟩

/-- The user entry built for a live resource in the upsert loop. -/
def mkUserEntry (sp : IAMIdentityMappingSpec) : MapUser :=
  ⟨sp.arn, sp.username, sp.groups⟩

/-- Classify-and-upsert loop (src/main.rs lines 109-130): for each live
resource, if its arn contains ":role/" drop same-arn role entries and push a
fresh role entry, else drop same-arn user entries and push a fresh user
entry. -/
def upsert : List IAMIdentityMappingSpec → List MapRole → List MapUser →
    List MapRole × List MapUser
  | [], roles, users => (roles, users)
  | item :: rest, roles, users =>
    if isRoleArn item.arn then
      upsert rest
        (roles.filter (fun r => r.rolearn != item.arn) ++ [mkRoleEntry item])
        users
    else
      upsert rest roles
        (users.filter (fun r => r.userarn != item.arn) ++ [mkUserEntry item])

/-- The pure list transformation of one reconciliation: prune both lists
against the snapshot, then classify and upsert every live resource. -/
def computeLists (state : List IAMIdentityMappingSpec)
    (roles : List MapRole) (users : List MapUser) :
    List MapRole × List MapUser :=
  upsert state (pruneRoles state roles) (pruneUsers state users)

/-- Requeue action returned to the scheduler (kube_runtime Action::requeue),
keyed by the delay in seconds. -/
inductive SchedAction where
  | requeue (secs : Nat)
deriving DecidableEq, Repr

/-- The controller error type (src/main.rs, enum CrdError). -/
inductive CrdError where
  | any (msg : String)
deriving DecidableEq, Repr

/-- A stored serialized list, modelled by its parse outcome: serde_yaml is an
external library, so a stored string is represented as either the list it
deserializes to or as malformed content.  The literal "[]" is the ok empty
list. -/
inductive Blob (α : Type) where
  | ok (val : α)
  | malformed
deriving DecidableEq, Repr

/-- The data map of the aws-auth ConfigMap: the two recognized keys, each
optional (a BTreeMap may lack either). -/
structure AwsAuthData where
  mapRoles : Option (Blob (List MapRole))
  mapUsers : Option (Blob (List MapUser))
deriving DecidableEq, Repr

/-- The fetched ConfigMap: its data map is optional (k8s ConfigMap.data is
Option<BTreeMap>). -/
structure ConfigMapModel where
  data : Option AwsAuthData
deriving DecidableEq, Repr

/-- Outcome of cm_api.get(AWS_AUTH): success with a ConfigMap, a NotFound
error (document absent), or a transient API error. -/
inductive FetchOutcome where
  | success (cm : ConfigMapModel)
  | notFound
  | transientError
deriving DecidableEq, Repr

/-- Result::ok() applied to the fetch outcome (src/main.rs line 85,
let cm = cm.ok()): every error collapses to None. -/
def fetchOk : FetchOutcome → Option ConfigMapModel
  | .success cm => some cm
  | .notFound => none
  | .transientError => none

/-- Serialized default for a missing mapRoles key: "[]". -/
def emptyRolesBlob : Blob (List MapRole) := .ok []

/-- Serialized default for a missing mapUsers key: "[]". -/
def emptyUsersBlob : Blob (List MapUser) := .ok []

/-- Extraction of the two serialized lists (src/main.rs lines 87-100):
cm.map(|v| v.data).flatten().map(|d| (d.get("mapRoles").. default "[]",
d.get("mapUsers").. default "[]")).unwrap_or(("[]", "[]")). -/
def extractBlobs (cm : Option ConfigMapModel) :
    Blob (List MapRole) × Blob (List MapUser) :=
  match cm.bind (fun v => v.data) with
  | some d => (d.mapRoles.getD emptyRolesBlob, d.mapUsers.getD emptyUsersBlob)
  | none => (emptyRolesBlob, emptyUsersBlob)

/-- serde_yaml::from_str on a stored blob: the ok list, or an error for
malformed content (the ? operator then aborts the attempt). -/
def parseBlob {α : Type} (msg : String) : Blob α → Except CrdError α
  | .ok v => .ok v
  | .malformed => .error (.any msg)

/-- The ConfigMap built and applied by reconcile (src/main.rs lines 131-149):
both computed lists serialized back under their keys. -/
def mkConfigMap (ru : List MapRole × List MapUser) : ConfigMapModel :=
  ⟨some ⟨some (.ok ru.1), some (.ok ru.2)⟩⟩

/-- What one reconcile invocation produced: its returned value, the ConfigMap
it attempted to apply (none when control never reached the patch call), and
whether the latency histogram was recorded. -/
structure ReconcileOutcome where
  result : Except CrdError SchedAction
  applied : Option ConfigMapModel
  latencyEmitted : Bool

/-- The reconcile function (src/main.rs lines 78-166) over the modelled
effects: fetch outcome and Result::ok() collapse, key extraction with "[]"
defaults, the two parses with early error return, prune + upsert, build of
the new ConfigMap, one patch attempt whose failure aborts with an error, and
the latency histogram recorded only after a successful patch, followed by a
900 second requeue. -/
def reconcile (fetch : FetchOutcome) (state : List IAMIdentityMappingSpec)
    (applyOk : Bool) : ReconcileOutcome :=
  match parseBlob "Error while deserializing mapRoles"
      (extractBlobs (fetchOk fetch)).1 with
  | .error e => ⟨.error e, none, false⟩
  | .ok roles =>
    match parseBlob "Error while deserializing mapUsers"
        (extractBlobs (fetchOk fetch)).2 with
    | .error e => ⟨.error e, none, false⟩
    | .ok users =>
      let cm := mkConfigMap (computeLists state roles users)
      if applyOk then
        ⟨.ok (.requeue 900), some cm, true⟩
      else
        ⟨.error (.any "Failed to create ConfigMap"), some cm, false⟩

/-- The error policy (src/main.rs lines 169-171): a constant 10 second
requeue, ignoring the object and the error. -/
def error_policy (_e : CrdError) : SchedAction :=
  .requeue 10

/-- The arns of the snapshot's live resources. -/
def arnsOf (state : List IAMIdentityMappingSpec) : List String :=
  state.map IAMIdentityMappingSpec.arn

/-- The last element of the snapshot carrying a given arn, if any: the upsert
loop leaves exactly this resource's entry for that arn. -/
def lastWith : List IAMIdentityMappingSpec → String →
    Option IAMIdentityMappingSpec
  | [], _ => none
  | it :: rest, a =>
    match lastWith rest a with
    | some sp => some sp
    | none => if it.arn == a then some it else none

theorem lastWith_mem {s : List IAMIdentityMappingSpec} {a : String}
    {sp : IAMIdentityMappingSpec} (h : lastWith s a = some sp) :
    sp ∈ s ∧ sp.arn = a := by
  induction s with
  | nil => simp [lastWith] at h
  | cons it rest ih =>
    rw [lastWith] at h
    rcases h' : lastWith rest a with _ | sp'
    · rw [h'] at h
      by_cases hit : it.arn = a
      · simp only [beq_iff_eq, if_pos hit, Option.some.injEq] at h
        subst h
        exact ⟨List.mem_cons_self _ _, hit⟩
      · simp [hit] at h
    · rw [h'] at h
      simp only [Option.some.injEq] at h
      subst h
      rcases ih h' with ⟨hmem, harn⟩
      exact ⟨List.mem_cons_of_mem _ hmem, harn⟩

theorem lastWith_eq_none {s : List IAMIdentityMappingSpec} {a : String} :
    lastWith s a = none ↔ ∀ it ∈ s, it.arn ≠ a := by
  induction s with
  | nil => simp [lastWith]
  | cons it rest ih =>
    rw [lastWith]
    constructor
    · intro h
      rcases h' : lastWith rest a with _ | sp
      · rw [h'] at h
        by_cases hit : it.arn = a
        · simp [hit] at h
        · intro j hj
          rcases List.mem_cons.1 hj with rfl | hj'
          · exact hit
          · exact ih.1 h' j hj'
      · rw [h'] at h
        exact absurd h (by simp)
    · intro hall
      rw [ih.2 (fun j hj => hall j (List.mem_cons_of_mem _ hj))]
      have hit : it.arn ≠ a := hall it (List.mem_cons_self _ _)
      simp [hit]

theorem lastWith_isSome_of_mem {s : List IAMIdentityMappingSpec}
    {sp : IAMIdentityMappingSpec} (h : sp ∈ s) :
    ∃ sp', lastWith s sp.arn = some sp' := by
  rcases h' : lastWith s sp.arn with _ | sp'
  · exact absurd rfl (lastWith_eq_none.1 h' sp h)
  · exact ⟨sp', rfl⟩

theorem lastWith_of_nodup {s : List IAMIdentityMappingSpec}
    {sp : IAMIdentityMappingSpec} (hnd : (arnsOf s).Nodup) (h : sp ∈ s) :
    lastWith s sp.arn = some sp := by
  induction s with
  | nil => exact absurd h (List.not_mem_nil sp)
  | cons it rest ih =>
    rw [arnsOf, List.map_cons, List.nodup_cons] at hnd
    rw [lastWith]
    rcases List.mem_cons.1 h with rfl | hmem
    · have hnone : lastWith rest sp.arn = none := by
        rw [lastWith_eq_none]
        intro j hj hja
        exact hnd.1 (hja ▸ List.mem_map_of_mem IAMIdentityMappingSpec.arn hj)
      rw [hnone]
      simp
    · rw [ih hnd.2 hmem]

theorem lastWith_cons_some {it : IAMIdentityMappingSpec}
    {rest : List IAMIdentityMappingSpec} {a : String}
    {sp : IAMIdentityMappingSpec} :
    lastWith (it :: rest) a = some sp ↔
      lastWith rest a = some sp ∨
        (lastWith rest a = none ∧ it.arn = a ∧ sp = it) := by
  rw [lastWith]
  rcases h : lastWith rest a with _ | sp'
  · by_cases hit : it.arn = a
    · simp only [beq_iff_eq, if_pos hit, Option.some.injEq]
      constructor
      · intro hsp
        exact .inr ⟨by simp, hit, hsp.symm⟩
      · rintro (hc | ⟨-, -, rfl⟩)
        · exact absurd hc (by simp)
        · rfl
    · simp only [beq_iff_eq, if_neg hit]
      constructor
      · intro hc
        exact absurd hc (by simp)
      · rintro (hc | ⟨-, hit', -⟩)
        · exact absurd hc (by simp)
        · exact absurd hit' hit
  · constructor
    · exact fun hsp => .inl hsp
    · rintro (hc | ⟨hc, -, -⟩)
      · exact hc
      · exact absurd hc (by simp)

theorem mem_upsert_fst (s : List IAMIdentityMappingSpec) (R : List MapRole)
    (U : List MapUser) (e : MapRole) :
    e ∈ (upsert s R U).1 ↔
      (e ∈ R ∧ ∀ it ∈ s, isRoleArn it.arn = true → it.arn ≠ e.rolearn) ∨
      (isRoleArn e.rolearn = true ∧
        ∃ sp, lastWith s e.rolearn = some sp ∧ e = mkRoleEntry sp) := by
  induction s generalizing R U with
  | nil => simp [upsert, lastWith]
  | cons it rest ih =>
    rw [upsert]
    by_cases hrole : isRoleArn it.arn = true
    · rw [if_pos hrole, ih]
      constructor
      · rintro (⟨hmem, hC⟩ | ⟨hR, sp, hlast, he⟩)
        · rcases List.mem_append.1 hmem with hf | hsingle
          · rcases List.mem_filter.1 hf with ⟨hR0, hne⟩
            rw [bne_iff_ne, ne_eq] at hne
            refine .inl ⟨hR0, ?_⟩
            intro j hj _
            rcases List.mem_cons.1 hj with rfl | hj'
            · exact fun hc => hne hc.symm
            · exact hC j hj' (by assumption)
          · have he : e = mkRoleEntry it := List.mem_singleton.1 hsingle
            have ha : e.rolearn = it.arn := by rw [he]; rfl
            refine .inr ⟨ha ▸ hrole, it,
              lastWith_cons_some.2 (.inr ⟨?_, ha.symm, rfl⟩), he⟩
            rw [lastWith_eq_none]
            intro j hj hja
            have hjr : isRoleArn j.arn = true := by rw [hja, ha]; exact hrole
            exact hC j hj hjr hja
        · exact .inr ⟨hR, sp, lastWith_cons_some.2 (.inl hlast), he⟩
      · rintro (⟨hR0, hC⟩ | ⟨hR, sp, hlast, he⟩)
        · have hhead := hC it (List.mem_cons_self _ _) hrole
          refine .inl ⟨List.mem_append.2 (.inl (List.mem_filter.2
            ⟨hR0, ?_⟩)), fun j hj hjr => hC j (List.mem_cons_of_mem _ hj) hjr⟩
          rw [bne_iff_ne, ne_eq]
          exact fun hc => hhead hc.symm
        · rcases lastWith_cons_some.1 hlast with h' | ⟨h', hita, rfl⟩
          · exact .inr ⟨hR, sp, h', he⟩
          · refine .inl ⟨List.mem_append.2 (.inr (by simp [he])), ?_⟩
            intro j hj _
            exact lastWith_eq_none.1 h' j hj
    · rw [if_neg hrole, ih]
      constructor
      · rintro (⟨hmem, hC⟩ | ⟨hR, sp, hlast, he⟩)
        · refine .inl ⟨hmem, ?_⟩
          intro j hj hjr
          rcases List.mem_cons.1 hj with rfl | hj'
          · exact absurd hjr hrole
          · exact hC j hj' hjr
        · exact .inr ⟨hR, sp, lastWith_cons_some.2 (.inl hlast), he⟩
      · rintro (⟨hmem, hC⟩ | ⟨hR, sp, hlast, he⟩)
        · exact .inl ⟨hmem, fun j hj => hC j (List.mem_cons_of_mem _ hj)⟩
        · rcases lastWith_cons_some.1 hlast with h' | ⟨-, hita, rfl⟩
          · exact .inr ⟨hR, sp, h', he⟩
          · exact absurd (hita ▸ hR) hrole

theorem mem_upsert_snd (s : List IAMIdentityMappingSpec) (R : List MapRole)
    (U : List MapUser) (e : MapUser) :
    e ∈ (upsert s R U).2 ↔
      (e ∈ U ∧ ∀ it ∈ s, isRoleArn it.arn = false → it.arn ≠ e.userarn) ∨
      (isRoleArn e.userarn = false ∧
        ∃ sp, lastWith s e.userarn = some sp ∧ e = mkUserEntry sp) := by
  induction s generalizing R U with
  | nil => simp [upsert, lastWith]
  | cons it rest ih =>
    rw [upsert]
    by_cases hrole : isRoleArn it.arn = true
    · rw [if_pos hrole, ih]
      constructor
      · rintro (⟨hmem, hC⟩ | ⟨hU, sp, hlast, he⟩)
        · refine .inl ⟨hmem, ?_⟩
          intro j hj hjr
          rcases List.mem_cons.1 hj with rfl | hj'
          · rw [hjr] at hrole
            exact absurd hrole (by simp)
          · exact hC j hj' hjr
        · exact .inr ⟨hU, sp, lastWith_cons_some.2 (.inl hlast), he⟩
      · rintro (⟨hmem, hC⟩ | ⟨hU, sp, hlast, he⟩)
        · exact .inl ⟨hmem, fun j hj => hC j (List.mem_cons_of_mem _ hj)⟩
        · rcases lastWith_cons_some.1 hlast with h' | ⟨-, hita, rfl⟩
          · exact .inr ⟨hU, sp, h', he⟩
          · rw [hita] at hrole
            rw [hU] at hrole
            exact absurd hrole (by simp)
    · rw [if_neg hrole, ih]
      rw [Bool.not_eq_true] at hrole
      constructor
      · rintro (⟨hmem, hC⟩ | ⟨hU, sp, hlast, he⟩)
        · rcases List.mem_append.1 hmem with hf | hsingle
          · rcases List.mem_filter.1 hf with ⟨hU0, hne⟩
            rw [bne_iff_ne, ne_eq] at hne
            refine .inl ⟨hU0, ?_⟩
            intro j hj _
            rcases List.mem_cons.1 hj with rfl | hj'
            · exact fun hc => hne hc.symm
            · exact hC j hj' (by assumption)
          · have he : e = mkUserEntry it := List.mem_singleton.1 hsingle
            have ha : e.userarn = it.arn := by rw [he]; rfl
            refine .inr ⟨ha ▸ hrole, it,
              lastWith_cons_some.2 (.inr ⟨?_, ha.symm, rfl⟩), he⟩
            rw [lastWith_eq_none]
            intro j hj hja
            have hjr : isRoleArn j.arn = false := by rw [hja, ha]; exact hrole
            exact hC j hj hjr hja
        · exact .inr ⟨hU, sp, lastWith_cons_some.2 (.inl hlast), he⟩
      · rintro (⟨hU0, hC⟩ | ⟨hU, sp, hlast, he⟩)
        · have hhead := hC it (List.mem_cons_self _ _) hrole
          refine .inl ⟨List.mem_append.2 (.inl (List.mem_filter.2
            ⟨hU0, ?_⟩)), fun j hj hjr => hC j (List.mem_cons_of_mem _ hj) hjr⟩
          rw [bne_iff_ne, ne_eq]
          exact fun hc => hhead hc.symm
        · rcases lastWith_cons_some.1 hlast with h' | ⟨h', hita, rfl⟩
          · exact .inr ⟨hU, sp, h', he⟩
          · refine .inl ⟨List.mem_append.2 (.inr (by simp [he])), ?_⟩
            intro j hj _
            exact lastWith_eq_none.1 h' j hj

theorem mem_arnsOf {s : List IAMIdentityMappingSpec} {a : String} :
    a ∈ arnsOf s ↔ ∃ it ∈ s, it.arn = a := by
  simp [arnsOf]

theorem mem_pruneRoles {s : List IAMIdentityMappingSpec} {R : List MapRole}
    {e : MapRole} : e ∈ pruneRoles s R ↔ e ∈ R ∧ e.rolearn ∈ arnsOf s := by
  simp only [pruneRoles, List.mem_filter, List.any_eq_true, beq_iff_eq,
    mem_arnsOf]
  constructor
  · rintro ⟨hR, it, hit, ha⟩
    exact ⟨hR, it, hit, ha.symm⟩
  · rintro ⟨hR, it, hit, ha⟩
    exact ⟨hR, it, hit, ha.symm⟩

theorem mem_pruneUsers {s : List IAMIdentityMappingSpec} {U : List MapUser}
    {e : MapUser} : e ∈ pruneUsers s U ↔ e ∈ U ∧ e.username ∈ arnsOf s := by
  simp only [pruneUsers, List.mem_filter, List.any_eq_true, beq_iff_eq,
    mem_arnsOf]
  constructor
  · rintro ⟨hU, it, hit, ha⟩
    exact ⟨hU, it, hit, ha.symm⟩
  · rintro ⟨hU, it, hit, ha⟩
    exact ⟨hU, it, hit, ha.symm⟩

theorem mem_computeLists_fst (s : List IAMIdentityMappingSpec)
    (R : List MapRole) (U : List MapUser) (e : MapRole) :
    e ∈ (computeLists s R U).1 ↔
      (e ∈ R ∧ e.rolearn ∈ arnsOf s ∧ isRoleArn e.rolearn = false) ∨
      (isRoleArn e.rolearn = true ∧
        ∃ sp, lastWith s e.rolearn = some sp ∧ e = mkRoleEntry sp) := by
  rw [computeLists, mem_upsert_fst]
  constructor
  · rintro (⟨hm, hC⟩ | h)
    · rcases mem_pruneRoles.1 hm with ⟨hR, ha⟩
      by_cases hr : isRoleArn e.rolearn = true
      · rcases mem_arnsOf.1 ha with ⟨it, hit, hita⟩
        exact absurd hita (hC it hit (by rw [hita]; exact hr))
      · exact .inl ⟨hR, ha, Bool.eq_false_iff.2 hr⟩
    · exact .inr h
  · rintro (⟨hR, ha, hfalse⟩ | h)
    · refine .inl ⟨mem_pruneRoles.2 ⟨hR, ha⟩, ?_⟩
      intro j hj hjr hja
      rw [hja, hfalse] at hjr
      exact absurd hjr (by simp)
    · exact .inr h

theorem mem_computeLists_snd (s : List IAMIdentityMappingSpec)
    (R : List MapRole) (U : List MapUser) (e : MapUser) :
    e ∈ (computeLists s R U).2 ↔
      (e ∈ U ∧ e.username ∈ arnsOf s ∧
        ¬(e.userarn ∈ arnsOf s ∧ isRoleArn e.userarn = false)) ∨
      (isRoleArn e.userarn = false ∧
        ∃ sp, lastWith s e.userarn = some sp ∧ e = mkUserEntry sp) := by
  rw [computeLists, mem_upsert_snd]
  constructor
  · rintro (⟨hm, hC⟩ | h)
    · rcases mem_pruneUsers.1 hm with ⟨hU, ha⟩
      refine .inl ⟨hU, ha, ?_⟩
      rintro ⟨hmem', hfalse⟩
      rcases mem_arnsOf.1 hmem' with ⟨it, hit, hita⟩
      exact absurd hita (hC it hit (by rw [hita]; exact hfalse))
    · exact .inr h
  · rintro (⟨hU, ha, hnot⟩ | h)
    · refine .inl ⟨mem_pruneUsers.2 ⟨hU, ha⟩, ?_⟩
      intro j hj hjf hja
      exact hnot ⟨mem_arnsOf.2 ⟨j, hj, hja⟩, hja ▸ hjf⟩
    · exact .inr h

theorem nodup_upsert_fst (s : List IAMIdentityMappingSpec) (R : List MapRole)
    (U : List MapUser) (h : (R.map MapRole.rolearn).Nodup) :
    ((upsert s R U).1.map MapRole.rolearn).Nodup := by
  induction s generalizing R U with
  | nil => simpa [upsert]
  | cons it rest ih =>
    rw [upsert]
    by_cases hrole : isRoleArn it.arn = true
    · rw [if_pos hrole]
      refine ih _ _ ?_
      rw [List.map_append]
      rw [List.nodup_append]
      refine ⟨((List.filter_sublist R).map MapRole.rolearn).nodup h, by simp, ?_⟩
      intro x hx hx'
      rcases List.mem_map.1 hx with ⟨r, hr, hxa⟩
      rcases List.mem_filter.1 hr with ⟨-, hp⟩
      rw [bne_iff_ne, ne_eq] at hp
      have hxit : x = it.arn := by simpa [mkRoleEntry] using hx'
      exact hp (by rw [hxa, hxit])
    · rw [if_neg hrole]
      exact ih _ _ h

theorem nodup_upsert_snd (s : List IAMIdentityMappingSpec) (R : List MapRole)
    (U : List MapUser) (h : (U.map MapUser.userarn).Nodup) :
    ((upsert s R U).2.map MapUser.userarn).Nodup := by
  induction s generalizing R U with
  | nil => simpa [upsert]
  | cons it rest ih =>
    rw [upsert]
    by_cases hrole : isRoleArn it.arn = true
    · rw [if_pos hrole]
      exact ih _ _ h
    · rw [if_neg hrole]
      refine ih _ _ ?_
      rw [List.map_append]
      rw [List.nodup_append]
      refine ⟨((List.filter_sublist U).map MapUser.userarn).nodup h, by simp, ?_⟩
      intro x hx hx'
      rcases List.mem_map.1 hx with ⟨r, hr, hxa⟩
      rcases List.mem_filter.1 hr with ⟨-, hp⟩
      rw [bne_iff_ne, ne_eq] at hp
      have hxit : x = it.arn := by simpa [mkUserEntry] using hx'
      exact hp (by rw [hxa, hxit])

theorem nodup_computeLists_fst (s : List IAMIdentityMappingSpec)
    (R : List MapRole) (U : List MapUser)
    (h : (R.map MapRole.rolearn).Nodup) :
    ((computeLists s R U).1.map MapRole.rolearn).Nodup := by
  refine nodup_upsert_fst s _ _ ?_
  exact ((List.filter_sublist R).map MapRole.rolearn).nodup h

theorem nodup_computeLists_snd (s : List IAMIdentityMappingSpec)
    (R : List MapRole) (U : List MapUser)
    (h : (U.map MapUser.userarn).Nodup) :
    ((computeLists s R U).2.map MapUser.userarn).Nodup := by
  refine nodup_upsert_snd s _ _ ?_
  exact ((List.filter_sublist U).map MapUser.userarn).nodup h

/-- Claim C1: the spec requires pruning user entries by ARN (a user entry
whose ARN matches no live resource's ARN must be removed), matching the
role-entry prune and the source's own comment that entries with no
corresponding custom resource are removed.  The code instead compares the
entry's username field against the live arn (src/main.rs line 107).  At this
input one live resource has arn "arn:aws:iam::111:user/live"; the stored
user entry has userarn "arn:aws:iam::111:user/stale" (matching no live
resource) but username equal to the live arn, so it survives reconciliation,
contradicting the claim. -/
theorem c1_stale_user_entry_survives :
    (⟨"arn:aws:iam::111:user/stale", "arn:aws:iam::111:user/live", none⟩ :
        MapUser) ∈
      (computeLists [⟨"arn:aws:iam::111:user/live", "bob", none⟩] []
        [⟨"arn:aws:iam::111:user/stale", "arn:aws:iam::111:user/live",
          none⟩]).2 ∧
    ∀ it ∈ ([⟨"arn:aws:iam::111:user/live", "bob", none⟩] :
        List IAMIdentityMappingSpec),
      it.arn ≠ "arn:aws:iam::111:user/stale" := by
  constructor
  · decide
  · decide

/-- Claim C2, counterexample: the claim says a live resource whose ARN lacks
":role/" is represented by no entry in the role list.  With a live resource
of arn "arn:aws:iam::1:user/bar" and a fetched document whose role list
already holds an entry with that same arn, the role prune keeps the entry
(its rolearn matches a live arn; the prune never checks ARN shape) and the
upsert only touches the user list, so the role list still carries the ARN
after reconciliation. -/
theorem c2_role_list_keeps_user_arn :
    isRoleArn "arn:aws:iam::1:user/bar" = false ∧
    ∃ e ∈ (computeLists [⟨"arn:aws:iam::1:user/bar", "bar", none⟩]
        [⟨"arn:aws:iam::1:user/bar", "foo", none⟩] []).1,
      e.rolearn = "arn:aws:iam::1:user/bar" := by
  constructor
  · decide
  · decide

/-- Claim C2 as amended: every live resource whose ARN contains ":role/" is
represented by an entry in the role list after reconciliation, and every
other live resource by an entry in the user list; exclusivity does not hold,
because a pre-existing entry bearing the same ARN can survive in the other
list. -/
theorem c2_classification_amended (s : List IAMIdentityMappingSpec)
    (R : List MapRole) (U : List MapUser) (sp : IAMIdentityMappingSpec)
    (hmem : sp ∈ s) :
    (isRoleArn sp.arn = true →
      ∃ e ∈ (computeLists s R U).1, e.rolearn = sp.arn) ∧
    (isRoleArn sp.arn = false →
      ∃ e ∈ (computeLists s R U).2, e.userarn = sp.arn) := by
  rcases lastWith_isSome_of_mem hmem with ⟨sp', hlast⟩
  have harn : sp'.arn = sp.arn := (lastWith_mem hlast).2
  constructor
  · intro hr
    refine ⟨mkRoleEntry sp', ?_, by simp [mkRoleEntry, harn]⟩
    rw [mem_computeLists_fst]
    refine .inr ⟨by simpa [mkRoleEntry, harn] using hr, sp', ?_, rfl⟩
    simpa [mkRoleEntry, harn] using hlast
  · intro hr
    refine ⟨mkUserEntry sp', ?_, by simp [mkUserEntry, harn]⟩
    rw [mem_computeLists_snd]
    refine .inr ⟨by simpa [mkUserEntry, harn] using hr, sp', ?_, rfl⟩
    simpa [mkUserEntry, harn] using hlast

/-- Witness for the amended C2 at a concrete role-shaped and a concrete
user-shaped live resource. -/
theorem c2_classification_amended_witness :
    ((isRoleArn (IAMIdentityMappingSpec.arn ⟨"arn:aws:iam::1:role/r", "r",
        none⟩) = true →
      ∃ e ∈ (computeLists [⟨"arn:aws:iam::1:role/r", "r", none⟩] [] []).1,
        e.rolearn = IAMIdentityMappingSpec.arn ⟨"arn:aws:iam::1:role/r", "r",
          none⟩) ∧
     (isRoleArn (IAMIdentityMappingSpec.arn ⟨"arn:aws:iam::1:role/r", "r",
        none⟩) = false →
      ∃ e ∈ (computeLists [⟨"arn:aws:iam::1:role/r", "r", none⟩] [] []).2,
        e.userarn = IAMIdentityMappingSpec.arn ⟨"arn:aws:iam::1:role/r", "r",
          none⟩)) :=
  c2_classification_amended [⟨"arn:aws:iam::1:role/r", "r", none⟩] [] []
    ⟨"arn:aws:iam::1:role/r", "r", none⟩ (by decide)

/-- Claim C4: reconciliation is idempotent at the level of entry sets:
recomputing from an already-reconciled document and the unchanged snapshot
yields the same set of role entries and the same set of user entries. -/
theorem c4_idempotent (s : List IAMIdentityMappingSpec) (R : List MapRole)
    (U : List MapUser) :
    (∀ e, e ∈ (computeLists s (computeLists s R U).1
          (computeLists s R U).2).1 ↔
        e ∈ (computeLists s R U).1) ∧
    (∀ e, e ∈ (computeLists s (computeLists s R U).1
          (computeLists s R U).2).2 ↔
        e ∈ (computeLists s R U).2) := by
  constructor
  · intro e
    rw [mem_computeLists_fst]
    constructor
    · rintro (⟨h1, -, -⟩ | hp)
      · exact h1
      · exact (mem_computeLists_fst s R U e).2 (.inr hp)
    · intro h1
      rcases (mem_computeLists_fst s R U e).1 h1 with ⟨-, ha, hnr⟩ | hp
      · exact .inl ⟨h1, ha, hnr⟩
      · exact .inr hp
  · intro e
    rw [mem_computeLists_snd]
    constructor
    · rintro (⟨h1, -, -⟩ | hp)
      · exact h1
      · exact (mem_computeLists_snd s R U e).2 (.inr hp)
    · intro h1
      rcases (mem_computeLists_snd s R U e).1 h1 with ⟨-, ha, hnr⟩ | hp
      · exact .inl ⟨h1, ha, hnr⟩
      · exact .inr hp

/-- Claim C5, counterexample: the claim says a transient fetch failure is
surfaced as an error and not absorbed.  At a concrete input the reconcile
computation on a transient fetch error returns the success action (a 900
second requeue), not an error: the Result::ok() call on line 85 swallows the
failure. -/
theorem c5_fetch_error_not_surfaced :
    (reconcile .transientError [⟨"arn:aws:iam::1:user/x", "x", none⟩]
        true).result = .ok (.requeue 900) := rfl

/-- Claim C5 as amended: a transient document fetch failure is absorbed by
the Result::ok() conversion and is indistinguishable from an absent
document: reconciliation behaves exactly as in the bootstrap case, computing
and applying a document built from empty stored lists. -/
theorem c5_fetch_error_as_absent (s : List IAMIdentityMappingSpec)
    (applyOk : Bool) :
    reconcile .transientError s applyOk = reconcile .notFound s applyOk :=
  rfl

/-- Claim C7: an absent document is treated as two empty lists: reconcile
does not fail, computes the lists from the snapshot alone, applies the
resulting ConfigMap, records latency, and requeues after 900 seconds. -/
theorem c7_missing_document_bootstrap (s : List IAMIdentityMappingSpec) :
    reconcile .notFound s true =
      ⟨.ok (.requeue 900), some (mkConfigMap (computeLists s [] [])),
        true⟩ :=
  rfl

/-- Claim C3, counterexample: the claim says each list holds at most one
entry per ARN after the classify-and-upsert step.  With a fetched role list
holding two entries for the arn "u" and a live resource with that
(user-shaped) arn, both entries survive the role prune and the upsert never
touches the role list for a user-shaped arn, so two entries with the same
ARN remain. -/
theorem c3_duplicate_arns_survive :
    (computeLists [⟨"u", "bar", none⟩]
        [⟨"u", "a", none⟩, ⟨"u", "b", none⟩] []).1 =
      [⟨"u", "a", none⟩, ⟨"u", "b", none⟩] ∧
    ¬ ((computeLists [⟨"u", "bar", none⟩]
        [⟨"u", "a", none⟩, ⟨"u", "b", none⟩] []).1.map
          MapRole.rolearn).Nodup := by
  constructor
  · decide
  · decide

/-- Claim C3 as amended: when the fetched lists each carry pairwise distinct
ARNs and the snapshot's ARNs are pairwise distinct, the classify-and-upsert
step preserves at-most-one-entry-per-ARN in both lists, and every live
resource's entry (in the list its ARN shape selects) is exactly the entry
built from that resource's current username and groups. -/
theorem c3_upsert_unique_amended (s : List IAMIdentityMappingSpec)
    (R : List MapRole) (U : List MapUser)
    (hR : (R.map MapRole.rolearn).Nodup)
    (hU : (U.map MapUser.userarn).Nodup)
    (hs : (arnsOf s).Nodup) :
    ((computeLists s R U).1.map MapRole.rolearn).Nodup ∧
    ((computeLists s R U).2.map MapUser.userarn).Nodup ∧
    ∀ sp ∈ s,
      (isRoleArn sp.arn = true →
        mkRoleEntry sp ∈ (computeLists s R U).1 ∧
        ∀ e ∈ (computeLists s R U).1, e.rolearn = sp.arn →
          e = mkRoleEntry sp) ∧
      (isRoleArn sp.arn = false →
        mkUserEntry sp ∈ (computeLists s R U).2 ∧
        ∀ e ∈ (computeLists s R U).2, e.userarn = sp.arn →
          e = mkUserEntry sp) := by
  refine ⟨nodup_computeLists_fst s R U hR, nodup_computeLists_snd s R U hU,
    ?_⟩
  intro sp hmem
  have hlast : lastWith s sp.arn = some sp := lastWith_of_nodup hs hmem
  constructor
  · intro hr
    have hin : mkRoleEntry sp ∈ (computeLists s R U).1 := by
      rw [mem_computeLists_fst]
      exact .inr ⟨by simpa [mkRoleEntry] using hr, sp,
        by simpa [mkRoleEntry] using hlast, rfl⟩
    refine ⟨hin, ?_⟩
    intro e he hea
    refine List.inj_on_of_nodup_map (nodup_computeLists_fst s R U hR) he hin
      ?_
    simp [mkRoleEntry, hea]
  · intro hr
    have hin : mkUserEntry sp ∈ (computeLists s R U).2 := by
      rw [mem_computeLists_snd]
      exact .inr ⟨by simpa [mkUserEntry] using hr, sp,
        by simpa [mkUserEntry] using hlast, rfl⟩
    refine ⟨hin, ?_⟩
    intro e he hea
    refine List.inj_on_of_nodup_map (nodup_computeLists_snd s R U hU) he hin
      ?_
    simp [mkUserEntry, hea]

/-- Witness for the amended C3 on a concrete snapshot with one role-shaped
and one user-shaped resource and a one-entry fetched role list. -/
theorem c3_upsert_unique_amended_witness :
    ((computeLists [⟨"arn:a:role/r", "r", none⟩, ⟨"arn:a:user/u", "u", none⟩]
        [⟨"arn:a:role/old", "o", none⟩] []).1.map MapRole.rolearn).Nodup ∧
    ((computeLists [⟨"arn:a:role/r", "r", none⟩, ⟨"arn:a:user/u", "u", none⟩]
        [⟨"arn:a:role/old", "o", none⟩] []).2.map MapUser.userarn).Nodup ∧
    ∀ sp ∈ ([⟨"arn:a:role/r", "r", none⟩, ⟨"arn:a:user/u", "u", none⟩] :
        List IAMIdentityMappingSpec),
      (isRoleArn sp.arn = true →
        mkRoleEntry sp ∈ (computeLists [⟨"arn:a:role/r", "r", none⟩,
          ⟨"arn:a:user/u", "u", none⟩] [⟨"arn:a:role/old", "o", none⟩] []).1 ∧
        ∀ e ∈ (computeLists [⟨"arn:a:role/r", "r", none⟩,
            ⟨"arn:a:user/u", "u", none⟩] [⟨"arn:a:role/old", "o", none⟩]
            []).1, e.rolearn = sp.arn → e = mkRoleEntry sp) ∧
      (isRoleArn sp.arn = false →
        mkUserEntry sp ∈ (computeLists [⟨"arn:a:role/r", "r", none⟩,
          ⟨"arn:a:user/u", "u", none⟩] [⟨"arn:a:role/old", "o", none⟩] []).2 ∧
        ∀ e ∈ (computeLists [⟨"arn:a:role/r", "r", none⟩,
            ⟨"arn:a:user/u", "u", none⟩] [⟨"arn:a:role/old", "o", none⟩]
            []).2, e.userarn = sp.arn → e = mkUserEntry sp) :=
  c3_upsert_unique_amended
    [⟨"arn:a:role/r", "r", none⟩, ⟨"arn:a:user/u", "u", none⟩]
    [⟨"arn:a:role/old", "o", none⟩] [] (by decide) (by decide) (by decide)

/-- Claim C6: a parse failure of either stored list makes this reconcile
attempt return an error before any apply is performed, so malformed stored
content is left unmodified. -/
theorem c6_parse_failure_aborts (fetch : FetchOutcome)
    (s : List IAMIdentityMappingSpec) (applyOk : Bool)
    (h : (extractBlobs (fetchOk fetch)).1 = .malformed ∨
      (extractBlobs (fetchOk fetch)).2 = .malformed) :
    (∃ e, (reconcile fetch s applyOk).result = .error e) ∧
    (reconcile fetch s applyOk).applied = none := by
  rcases h with h | h
  · have he : reconcile fetch s applyOk =
        ⟨.error (.any "Error while deserializing mapRoles"), none, false⟩ := by
      rw [reconcile, h]
      rfl
    rw [he]
    exact ⟨⟨_, rfl⟩, rfl⟩
  · cases h1 : (extractBlobs (fetchOk fetch)).1 with
    | ok v =>
      have he : reconcile fetch s applyOk =
          ⟨.error (.any "Error while deserializing mapUsers"), none,
            false⟩ := by
        rw [reconcile, h1, h]
        rfl
      rw [he]
      exact ⟨⟨_, rfl⟩, rfl⟩
    | malformed =>
      have he : reconcile fetch s applyOk =
          ⟨.error (.any "Error while deserializing mapRoles"), none,
            false⟩ := by
        rw [reconcile, h1]
        rfl
      rw [he]
      exact ⟨⟨_, rfl⟩, rfl⟩

/-- Witness for C6: a fetched ConfigMap whose mapRoles value is malformed
yields an error and no apply. -/
theorem c6_parse_failure_aborts_witness :
    (∃ e, (reconcile (.success ⟨some ⟨some .malformed, some (.ok [])⟩⟩) []
        true).result = .error e) ∧
    (reconcile (.success ⟨some ⟨some .malformed, some (.ok [])⟩⟩) []
        true).applied = none :=
  c6_parse_failure_aborts (.success ⟨some ⟨some .malformed, some (.ok [])⟩⟩)
    [] true (.inl rfl)

/-- Claim C8: every successful reconcile returns a fixed 900 second requeue,
and the error policy returns a fixed 10 second requeue for every error; no
backoff varies these delays. -/
theorem c8_fixed_requeue_delays :
    (∀ (fetch : FetchOutcome) (s : List IAMIdentityMappingSpec)
        (applyOk : Bool) (act : SchedAction),
      (reconcile fetch s applyOk).result = .ok act →
        act = .requeue 900) ∧
    (∀ e : CrdError, error_policy e = .requeue 10) := by
  constructor
  · intro fetch s applyOk act h
    cases h1 : (extractBlobs (fetchOk fetch)).1 with
    | malformed =>
      rw [reconcile, h1] at h
      exact absurd h (by simp [parseBlob])
    | ok roles =>
      cases h2 : (extractBlobs (fetchOk fetch)).2 with
      | malformed =>
        rw [reconcile, h1, h2] at h
        exact absurd h (by simp [parseBlob])
      | ok users =>
        rw [reconcile, h1, h2] at h
        cases applyOk with
        | true =>
          simp only [parseBlob, if_true] at h
          exact (Except.ok.injEq _ _ ▸ h :
            SchedAction.requeue 900 = act).symm
        | false =>
          exact absurd h (by simp [parseBlob])
  · intro e
    rfl

/-- Witness for C8: a concrete successful invocation yields the 900 second
requeue, and the error policy on a concrete error yields the 10 second
requeue. -/
theorem c8_fixed_requeue_delays_witness :
    SchedAction.requeue 900 = .requeue 900 ∧
    error_policy (.any "boom") = .requeue 10 :=
  ⟨c8_fixed_requeue_delays.1 .notFound [] true (.requeue 900) rfl,
    c8_fixed_requeue_delays.2 (.any "boom")⟩

/-- Claim C9, counterexample: the claim says every invocation performs
exactly one apply and emits exactly one latency measurement regardless of
outcome.  An invocation whose stored mapUsers value fails to parse performs
no apply at all and emits no latency measurement. -/
theorem c9_no_apply_on_parse_failure :
    (reconcile (.success ⟨some ⟨some (.ok []), some .malformed⟩⟩) []
        true).applied = none ∧
    (reconcile (.success ⟨some ⟨some (.ok []), some .malformed⟩⟩) []
        true).latencyEmitted = false :=
  ⟨rfl, rfl⟩

/-- Claim C9 as amended: every invocation that passes both parses performs
exactly one apply attempt of the freshly computed document, with no
dirty-check short-circuit even when the computed content equals the stored
content; the latency measurement is emitted exactly when the apply succeeds;
invocations failing a parse perform no apply and emit no measurement. -/
theorem c9_apply_and_latency_amended (fetch : FetchOutcome)
    (s : List IAMIdentityMappingSpec) (applyOk : Bool)
    (roles : List MapRole) (users : List MapUser)
    (h1 : (extractBlobs (fetchOk fetch)).1 = .ok roles)
    (h2 : (extractBlobs (fetchOk fetch)).2 = .ok users) :
    (reconcile fetch s applyOk).applied =
      some (mkConfigMap (computeLists s roles users)) ∧
    (reconcile fetch s applyOk).latencyEmitted = applyOk := by
  cases applyOk with
  | true =>
    have he : reconcile fetch s true =
        ⟨.ok (.requeue 900),
          some (mkConfigMap (computeLists s roles users)), true⟩ := by
      rw [reconcile, h1, h2]
      rfl
    rw [he]
    exact ⟨rfl, rfl⟩
  | false =>
    have he : reconcile fetch s false =
        ⟨.error (.any "Failed to create ConfigMap"),
          some (mkConfigMap (computeLists s roles users)), false⟩ := by
      rw [reconcile, h1, h2]
      rfl
    rw [he]
    exact ⟨rfl, rfl⟩

/-- Witness for the amended C9: a stored document identical to the computed
one is still applied once, and the latency histogram is recorded. -/
theorem c9_apply_and_latency_amended_witness :
    (reconcile (.success ⟨some ⟨some (.ok []), some (.ok [])⟩⟩) []
        true).applied = some (mkConfigMap (computeLists [] [] [])) ∧
    (reconcile (.success ⟨some ⟨some (.ok []), some (.ok [])⟩⟩) []
        true).latencyEmitted = true :=
  c9_apply_and_latency_amended (.success ⟨some ⟨some (.ok []), some (.ok [])⟩⟩)
    [] true [] [] rfl rfl

/-- Claim C10: a fetched document with no data map, or with either key
missing, defaults each missing key independently to the serialized empty
list while a present key is taken from its stored value, and reconciliation
proceeds without error in these shapes whenever the present values parse. -/
theorem c10_missing_keys_default :
    extractBlobs (some ⟨none⟩) = (emptyRolesBlob, emptyUsersBlob) ∧
    (∀ mu : Option (Blob (List MapUser)),
      extractBlobs (some ⟨some ⟨none, mu⟩⟩) =
        (emptyRolesBlob, mu.getD emptyUsersBlob)) ∧
    (∀ mr : Option (Blob (List MapRole)),
      extractBlobs (some ⟨some ⟨mr, none⟩⟩) =
        (mr.getD emptyRolesBlob, emptyUsersBlob)) ∧
    ∀ (s : List IAMIdentityMappingSpec) (d : Option AwsAuthData)
      (roles : List MapRole) (users : List MapUser),
      extractBlobs (some ⟨d⟩) = (.ok roles, .ok users) →
      (reconcile (.success ⟨d⟩) s true).result = .ok (.requeue 900) := by
  refine ⟨rfl, fun mu => rfl, fun mr => rfl, ?_⟩
  intro s d roles users h
  have h1 : (extractBlobs (fetchOk (.success ⟨d⟩))).1 = .ok roles := by
    show (extractBlobs (some ⟨d⟩)).1 = _
    rw [h]
  have h2 : (extractBlobs (fetchOk (.success ⟨d⟩))).2 = .ok users := by
    show (extractBlobs (some ⟨d⟩)).2 = _
    rw [h]
  rw [reconcile, h1, h2]
  rfl

/-- Witness for C10: an existing ConfigMap with an empty data map
reconciles successfully. -/
theorem c10_missing_keys_default_witness :
    (reconcile (.success ⟨some ⟨none, none⟩⟩) [] true).result =
      .ok (.requeue 900) :=
  c10_missing_keys_default.2.2.2 [] (some ⟨none, none⟩) [] [] rfl
